import Mathlib

/-!
A verification development for the skeleton-editing and motion-retargeting core
(BVH import, mirror editing, snap-to-volume, rest-pose rotation corrections).

Modelling conventions, applied throughout:

* Scalars are exact rationals (`ℚ`).  The JavaScript source computes with IEEE
  doubles; every claim checked here is about the algebraic content of the
  code, not about rounding.
* `Math.sqrt` is rendered by `ratSqrt`, a deterministic rational stand-in that
  is exact on perfect squares of rationals.  No theorem below depends on the
  values `ratSqrt` takes on non-squares; where exactness of a square root
  matters, the theorem carries an explicit hypothesis.
* `a.distanceTo b < r` (with `r ≥ 0`) is rendered as `distSq a b < r ^ 2`,
  which is exactly equivalent for nonnegative distances and avoids the root.
* three.js `Object3D` world matrices are affine maps; `updateWorldMatrix`
  recomputes caches, so in this pure model world transforms are derived on
  demand from the local transforms and the calls are no-ops.
* Bones are stored arena-style: a flat list in hierarchy traversal order with
  parent links by index (parents precede children), matching the skeleton
  invariant "index 0 is the root; every non-root bone's parent is present".
* `Math.cos` / `Math.sin` enter only through `Quaternion.setFromEuler`; they
  are passed as explicit function arguments (`cosF`, `sinF`), and no theorem
  depends on their values.
-/

namespace M2M

/-- A 3-component vector over exact rationals (three.js `Vector3`). -/
structure Vec3 where
  x : ℚ
  y : ℚ
  z : ℚ
deriving DecidableEq, Repr

/-- A quaternion over exact rationals (three.js `Quaternion`, components x y z w). -/
structure Quat where
  x : ℚ
  y : ℚ
  z : ℚ
  w : ℚ
deriving DecidableEq, Repr

/-- Euler angles with the fixed default rotation order XYZ (three.js `Euler`). -/
structure Euler3 where
  x : ℚ
  y : ℚ
  z : ℚ
deriving DecidableEq, Repr

def Vec3.add (a b : Vec3) : Vec3 := ⟨a.x + b.x, a.y + b.y, a.z + b.z⟩

def Vec3.sub (a b : Vec3) : Vec3 := ⟨a.x - b.x, a.y - b.y, a.z - b.z⟩

def Vec3.smul (c : ℚ) (v : Vec3) : Vec3 := ⟨c * v.x, c * v.y, c * v.z⟩

def Vec3.neg (v : Vec3) : Vec3 := ⟨-v.x, -v.y, -v.z⟩

def Vec3.dot (a b : Vec3) : ℚ := a.x * b.x + a.y * b.y + a.z * b.z

/-- three.js `Vector3.cross`. -/
def Vec3.cross (a b : Vec3) : Vec3 :=
  ⟨a.y * b.z - a.z * b.y, a.z * b.x - a.x * b.z, a.x * b.y - a.y * b.x⟩

def Vec3.lengthSq (v : Vec3) : ℚ := v.x * v.x + v.y * v.y + v.z * v.z

/-- Squared distance between two points (`Vector3.distanceToSquared`). -/
def Vec3.distSq (a b : Vec3) : ℚ := (Vec3.sub a b).lengthSq

def Vec3.zero : Vec3 := ⟨0, 0, 0⟩

/-- A simple exact square root on naturals: the largest `k ≤ n` with
`k * k ≤ n`, computed by a fold so that it evaluates by plain rewriting. -/
def natSqrtFold (n : Nat) : Nat :=
  (List.range (n + 1)).foldl (fun a k => if k * k ≤ n then k else a) 0

/-- Rational stand-in for JavaScript `Math.sqrt`: exact whenever the numerator
and denominator are perfect squares, some deterministic rational otherwise,
and `0` on nonpositive input (JS yields `NaN` on negatives, never consumed by
the code under study). -/
def ratSqrt (q : ℚ) : ℚ :=
  if q ≤ 0 then 0
  else (natSqrtFold q.num.toNat : ℚ) / (natSqrtFold q.den : ℚ)

/-- three.js `Vector3.normalize`: divide by `length() || 1`, so the zero
vector (any vector whose model length evaluates to `0`) is left unchanged. -/
def Vec3.normalize (v : Vec3) : Vec3 :=
  let l := ratSqrt v.lengthSq
  if l = 0 then v else Vec3.smul (1 / l) v

/-- Hamilton product, three.js `Quaternion.multiplyQuaternions a b`
(`a.multiply b` is `multiplyQuaternions (a, b)`). -/
def Quat.mul (a b : Quat) : Quat :=
  ⟨a.x * b.w + a.w * b.x + a.y * b.z - a.z * b.y,
   a.y * b.w + a.w * b.y + a.z * b.x - a.x * b.z,
   a.z * b.w + a.w * b.z + a.x * b.y - a.y * b.x,
   a.w * b.w - a.x * b.x - a.y * b.y - a.z * b.z⟩

/-- three.js `Quaternion.invert` is the conjugate (unit length assumed). -/
def Quat.conjugate (q : Quat) : Quat := ⟨-q.x, -q.y, -q.z, q.w⟩

def Quat.normSq (q : Quat) : ℚ := q.x * q.x + q.y * q.y + q.z * q.z + q.w * q.w

def Quat.one : Quat := ⟨0, 0, 0, 1⟩

/-- A 3×3 matrix (row-major fields `mRC`). -/
structure Mat3 where
  m11 : ℚ
  m12 : ℚ
  m13 : ℚ
  m21 : ℚ
  m22 : ℚ
  m23 : ℚ
  m31 : ℚ
  m32 : ℚ
  m33 : ℚ
deriving DecidableEq, Repr

def Mat3.id : Mat3 := ⟨1, 0, 0, 0, 1, 0, 0, 0, 1⟩

def Mat3.zero : Mat3 := ⟨0, 0, 0, 0, 0, 0, 0, 0, 0⟩

def Mat3.mulVec (m : Mat3) (v : Vec3) : Vec3 :=
  ⟨m.m11 * v.x + m.m12 * v.y + m.m13 * v.z,
   m.m21 * v.x + m.m22 * v.y + m.m23 * v.z,
   m.m31 * v.x + m.m32 * v.y + m.m33 * v.z⟩

def Mat3.mul (a b : Mat3) : Mat3 :=
  ⟨a.m11 * b.m11 + a.m12 * b.m21 + a.m13 * b.m31,
   a.m11 * b.m12 + a.m12 * b.m22 + a.m13 * b.m32,
   a.m11 * b.m13 + a.m12 * b.m23 + a.m13 * b.m33,
   a.m21 * b.m11 + a.m22 * b.m21 + a.m23 * b.m31,
   a.m21 * b.m12 + a.m22 * b.m22 + a.m23 * b.m32,
   a.m21 * b.m13 + a.m22 * b.m23 + a.m23 * b.m33,
   a.m31 * b.m11 + a.m32 * b.m21 + a.m33 * b.m31,
   a.m31 * b.m12 + a.m32 * b.m22 + a.m33 * b.m32,
   a.m31 * b.m13 + a.m32 * b.m23 + a.m33 * b.m33⟩

def Mat3.smul (c : ℚ) (m : Mat3) : Mat3 :=
  ⟨c * m.m11, c * m.m12, c * m.m13, c * m.m21, c * m.m22, c * m.m23,
   c * m.m31, c * m.m32, c * m.m33⟩

def Mat3.det (m : Mat3) : ℚ :=
  m.m11 * (m.m22 * m.m33 - m.m23 * m.m32)
    - m.m12 * (m.m21 * m.m33 - m.m23 * m.m31)
    + m.m13 * (m.m21 * m.m32 - m.m22 * m.m31)

/-- The adjugate (transpose of cofactors), so `m * adjugate m = det m • id`. -/
def Mat3.adjugate (m : Mat3) : Mat3 :=
  ⟨m.m22 * m.m33 - m.m23 * m.m32,
   m.m13 * m.m32 - m.m12 * m.m33,
   m.m12 * m.m23 - m.m13 * m.m22,
   m.m23 * m.m31 - m.m21 * m.m33,
   m.m11 * m.m33 - m.m13 * m.m31,
   m.m13 * m.m21 - m.m11 * m.m23,
   m.m21 * m.m32 - m.m22 * m.m31,
   m.m12 * m.m31 - m.m11 * m.m32,
   m.m11 * m.m22 - m.m12 * m.m21⟩

/-- `Matrix4.makeBasis x y z`: the three arguments become the matrix columns. -/
def Mat3.makeBasis (xa ya za : Vec3) : Mat3 :=
  ⟨xa.x, ya.x, za.x, xa.y, ya.y, za.y, xa.z, ya.z, za.z⟩

/-- Rotation matrix of a quaternion, the formula of three.js
`Matrix4.compose` / `makeRotationFromQuaternion`. -/
def quatToMat3 (q : Quat) : Mat3 :=
  let x2 := q.x + q.x
  let y2 := q.y + q.y
  let z2 := q.z + q.z
  let xx := q.x * x2
  let xy := q.x * y2
  let xz := q.x * z2
  let yy := q.y * y2
  let yz := q.y * z2
  let zz := q.z * z2
  let wx := q.w * x2
  let wy := q.w * y2
  let wz := q.w * z2
  ⟨1 - (yy + zz), xy - wz, xz + wy,
   xy + wz, 1 - (xx + zz), yz - wx,
   xz - wy, yz + wx, 1 - (xx + yy)⟩

/-- `Quaternion.setFromRotationMatrix`, branch for branch (trace method). -/
def quatFromRotationMatrix (m : Mat3) : Quat :=
  let trace := m.m11 + m.m22 + m.m33
  if 0 < trace then
    let s := (1 / 2) / ratSqrt (trace + 1)
    ⟨(m.m32 - m.m23) * s, (m.m13 - m.m31) * s, (m.m21 - m.m12) * s, (1 / 4) / s⟩
  else if m.m22 < m.m11 ∧ m.m33 < m.m11 then
    let s := 2 * ratSqrt (1 + m.m11 - m.m22 - m.m33)
    ⟨(1 / 4) * s, (m.m12 + m.m21) / s, (m.m13 + m.m31) / s, (m.m32 - m.m23) / s⟩
  else if m.m33 < m.m22 then
    let s := 2 * ratSqrt (1 + m.m22 - m.m11 - m.m33)
    ⟨(m.m12 + m.m21) / s, (1 / 4) * s, (m.m23 + m.m32) / s, (m.m13 - m.m31) / s⟩
  else
    let s := 2 * ratSqrt (1 + m.m33 - m.m11 - m.m22)
    ⟨(m.m13 + m.m31) / s, (m.m23 + m.m32) / s, (1 / 4) * s, (m.m21 - m.m12) / s⟩

/-- `Quaternion.setFromEuler` for the default order XYZ.  The trigonometric
functions are passed in as `cosF` and `sinF` (JS `Math.cos` / `Math.sin`); no
theorem below depends on their values. -/
def quatFromEuler (cosF sinF : ℚ → ℚ) (e : Euler3) : Quat :=
  let c1 := cosF (e.x / 2)
  let c2 := cosF (e.y / 2)
  let c3 := cosF (e.z / 2)
  let s1 := sinF (e.x / 2)
  let s2 := sinF (e.y / 2)
  let s3 := sinF (e.z / 2)
  ⟨s1 * c2 * c3 + c1 * s2 * s3,
   c1 * s2 * c3 - s1 * c2 * s3,
   c1 * c2 * s3 + s1 * s2 * c3,
   c1 * c2 * c3 - s1 * s2 * s3⟩

/-- An affine map: the last row of a three.js `Matrix4` built by `compose` is
`0 0 0 1`, so world matrices are linear parts plus translations. -/
structure Affine where
  linear : Mat3
  trans : Vec3
deriving DecidableEq, Repr

def Affine.id : Affine := ⟨Mat3.id, Vec3.zero⟩

/-- `Vector3.applyMatrix4` for an affine matrix (the homogeneous coordinate is
`1`, so no perspective division occurs). -/
def Affine.apply (a : Affine) (v : Vec3) : Vec3 :=
  Vec3.add (a.linear.mulVec v) a.trans

def Affine.comp (a b : Affine) : Affine :=
  ⟨a.linear.mul b.linear, Vec3.add (a.linear.mulVec b.trans) a.trans⟩

/-- `Matrix4.invert`: the exact inverse, except that a singular matrix is
replaced by the zero matrix, exactly as three.js does.  (Applying the zero
4×4 matrix in three.js then divides by a homogeneous coordinate of 0,
producing non-finite values; the theorems that use this inverse therefore
assume a nonzero determinant.) -/
def Affine.invert (a : Affine) : Affine :=
  let d := a.linear.det
  if d = 0 then ⟨Mat3.zero, Vec3.zero⟩
  else
    let li := Mat3.smul (1 / d) a.linear.adjugate
    ⟨li, Vec3.neg (li.mulVec a.trans)⟩

end M2M

namespace M2M

/-- ASCII lowercasing of one character (`String.toLowerCase` on the ASCII
names this code meets). -/
def lowerChar (c : Char) : Char :=
  if 'A' ≤ c ∧ c ≤ 'Z' then Char.ofNat (c.toNat + 32) else c

/-- Lowercase a string characterwise (JS `toLowerCase`). -/
def lowerStr (s : String) : String := ⟨s.data.map lowerChar⟩

/-- Whether `pat` occurs as a contiguous run inside `s` (JS `includes`). -/
def charsContain (pat : List Char) : List Char → Bool
  | [] => pat.isPrefixOf ([] : List Char)
  | c :: rest => pat.isPrefixOf (c :: rest) || charsContain pat rest

/-- `s.includes pat` on strings. -/
def strContains (s pat : String) : Bool := charsContain pat.data s.data

/-- Remove the first occurrence of `pat` from a character list; the list is
returned unchanged when `pat` does not occur. -/
def removeFirstChars (pat : List Char) : List Char → List Char
  | [] => []
  | c :: rest =>
    if pat.isPrefixOf (c :: rest) then (c :: rest).drop pat.length
    else c :: removeFirstChars pat rest

/-- Modelled from the spec: `Utility.calculate_bone_base_name` (the file
`Utilities.ts` is not among the provided sources; only its callers are).
Per spec §4.4 the base name is derived "by stripping common left/right
markers and vendor-specific naming prefixes (case-insensitive)", and the
caller's comment in `StepEditSkeleton.ts` names the `mixamorig` prefix:
lowercase, drop a leading `mixamorig:`/`mixamorig_`, remove a `left` or
`right` marker, and drop a trailing `_l`/`_r`. -/
def calculate_bone_base_name (name : String) : String :=
  let s0 := (lowerStr name).data
  let s1 :=
    if ("mixamorig:".data).isPrefixOf s0 then s0.drop 10
    else if ("mixamorig_".data).isPrefixOf s0 then s0.drop 10
    else s0
  let s2 := removeFirstChars "left".data s1
  let s3 := removeFirstChars "right".data s2
  let s4 := if ("_l".data).isSuffixOf s3 then s3.dropLast.dropLast else s3
  let s5 := if ("_r".data).isSuffixOf s4 then s4.dropLast.dropLast else s4
  ⟨s5⟩

/-- One bone of the editable skeleton: arena-indexed node carrying the local
transform.  `parent = none` stands for a parent outside the bone list (the
armature container, assumed to sit at the scene origin with the identity
transform), matching the `parent.type === 'Bone'` tests in the source.
three.js keeps `rotation` (Euler view) and `quaternion` synchronized; both
are carried as state.  The quaternion → Euler resynchronization after a
quaternion write involves inverse trigonometry and is not modelled; no claim
observes an Euler angle written that way. -/
structure BoneData where
  name : String
  parent : Option Nat
  position : Vec3
  rotation : Euler3
  quaternion : Quat
  scale : Vec3
deriving DecidableEq, Repr

/-- Modelled from the spec: the `BoneTransformState` snapshot entry
(`interfaces/BoneTransformState.ts` is not among the provided sources).  Per
spec §3 it is "a copy of its local transform" keyed by stable index. -/
structure BoneTransformState where
  position : Vec3
  rotation : Euler3
  quaternion : Quat
  scale : Vec3
deriving DecidableEq, Repr

/-- Modelled from the spec: `Utility.store_bone_transforms` (§4.2 `capture`):
a copy of every bone's local transform, in bone order. -/
def store_bone_transforms (bones : List BoneData) : List BoneTransformState :=
  bones.map fun b => ⟨b.position, b.rotation, b.quaternion, b.scale⟩

/-- Modelled from the spec: `Utility.restore_bone_transforms` (§4.2
`restore`): overwrite each bone's local transform with the snapshot's value
for its index; bones absent from the snapshot are left untouched. -/
def restore_bone_transforms : List BoneData → List BoneTransformState → List BoneData
  | [], _ => []
  | b :: bs, [] => b :: bs
  | b :: bs, t :: ts =>
    { b with
      position := t.position, rotation := t.rotation,
      quaternion := t.quaternion, scale := t.scale } :: restore_bone_transforms bs ts

/-- The local matrix of a bone, `Matrix4.compose (position, quaternion,
scale)`: rotation columns scaled, then the translation. -/
def localAffine (b : BoneData) : Affine :=
  ⟨(quatToMat3 b.quaternion).mul ⟨b.scale.x, 0, 0, 0, b.scale.y, 0, 0, 0, b.scale.z⟩,
   b.position⟩

/-- World matrix of bone `i`: the parent chain's composition of local
matrices, fuel-bounded by the list length (parents precede children, so the
chain is no longer than the list). -/
def worldAffineAux (bones : List BoneData) : Nat → Nat → Affine
  | 0, _ => Affine.id
  | fuel + 1, i =>
    match bones.get? i with
    | none => Affine.id
    | some b =>
      match b.parent with
      | none => localAffine b
      | some p => (worldAffineAux bones fuel p).comp (localAffine b)

def worldAffine (bones : List BoneData) (i : Nat) : Affine :=
  worldAffineAux bones (bones.length + 1) i

/-- Modelled from the spec: `Utility.world_position_from_object` — the
translation component of the object's world matrix (three.js
`getWorldPosition` after `updateWorldMatrix`). -/
def world_position_from_object (bones : List BoneData) (i : Nat) : Vec3 :=
  (worldAffine bones i).trans

end M2M

namespace M2M

/-- `Map.set` of the JS `Map<string, Quaternion>`: bind (or rebind) a key. -/
def mapSet (m : List (String × Quat)) (k : String) (v : Quat) : List (String × Quat) :=
  (k, v) :: m.filter fun p => p.1 ≠ k

/-- `Map.get`: the value bound to a key, if any. -/
def mapGet (m : List (String × Quat)) (k : String) : Option Quat :=
  (m.find? fun p => p.1 = k).map fun p => p.2

/-- A `forEach` that conditionally `Map.set`s one entry per index, the common
shape of the two map-building loops in `get_rest_pose_rotation_corrections`. -/
def mapFold (f : Nat → Option (String × Quat)) (indices : List Nat)
    (acc : List (String × Quat)) : List (String × Quat) :=
  indices.foldl
    (fun m i =>
      match f i with
      | some kv => mapSet m kv.1 kv.2
      | none => m)
    acc

/-- The local `find_bone` helper of `get_rest_pose_rotation_corrections`: the
first bone whose lowercased name equals or contains one of the lowercased
alias names.  The index is returned so world positions can be taken. -/
def find_bone (bones : List BoneData) (names : List String) : Option Nat :=
  let name_set := names.map lowerStr
  bones.findIdx? fun bone =>
    let bone_name := lowerStr bone.name
    name_set.any fun name => bone_name = name || strContains bone_name name

/-- The local `compute_forward_vector` of
`get_rest_pose_rotation_corrections`, line for line: an up direction from
hips→spine (default world up), a left-right direction from the hip pair or
else the arm pair (default world X), forward as their cross product (default
world Z when degenerate). -/
def compute_forward_vector (bones : List BoneData) : Vec3 :=
  let hips := find_bone bones ["hips", "pelvis"]
  let spine := find_bone bones ["spine", "spine1", "spine2", "lowerback"]
  let left_leg := find_bone bones ["leftupleg", "lhip", "lefthip", "lhipjoint"]
  let right_leg := find_bone bones ["rightupleg", "rhip", "righthip", "rhipjoint"]
  let left_arm := find_bone bones ["leftarm", "leftshoulder"]
  let right_arm := find_bone bones ["rightarm", "rightshoulder"]
  let up : Vec3 :=
    match hips, spine with
    | some h, some s =>
      let up_dir := Vec3.sub (world_position_from_object bones s)
        (world_position_from_object bones h)
      if 0 < up_dir.lengthSq then up_dir.normalize else ⟨0, 1, 0⟩
    | _, _ => ⟨0, 1, 0⟩
  let left_right : Vec3 :=
    match left_leg, right_leg with
    | some l, some r =>
      let lr_dir := Vec3.sub (world_position_from_object bones r)
        (world_position_from_object bones l)
      if 0 < lr_dir.lengthSq then lr_dir.normalize else ⟨1, 0, 0⟩
    | _, _ =>
      match left_arm, right_arm with
      | some l, some r =>
        let lr_dir := Vec3.sub (world_position_from_object bones r)
          (world_position_from_object bones l)
        if 0 < lr_dir.lengthSq then lr_dir.normalize else ⟨1, 0, 0⟩
      | _, _ => ⟨1, 0, 0⟩
  let forward := Vec3.cross left_right up
  if forward.lengthSq = 0 then ⟨0, 0, 1⟩ else forward.normalize

/-- The local `compute_rest_rotation` of
`get_rest_pose_rotation_corrections` for the bone at index `i`.  The first
bone-typed child is the first later list entry whose parent link is `i`
(three.js child order is the order the hierarchy was built in, the list
order here).  Returns `none` for bones with no bone child or a degenerate
bone direction, exactly as the source returns `null`. -/
def compute_rest_rotation (bones : List BoneData) (i : Nat) (forward : Vec3) :
    Option Quat :=
  match bones.get? i with
  | none => none
  | some bone =>
    match bones.findIdx? fun c => c.parent = some i with
    | none => none
    | some childIdx =>
      let bone_position := world_position_from_object bones i
      let child_position := world_position_from_object bones childIdx
      let direction := Vec3.sub child_position bone_position
      if direction.lengthSq = 0 then none
      else
        let y_axis := direction.normalize
        let z0 := Vec3.sub forward (Vec3.smul (forward.dot y_axis) y_axis)
        let z1 :=
          if z0.lengthSq = 0 then
            match bone.parent with
            | some p =>
              let parent_pos := world_position_from_object bones p
              (Vec3.sub bone_position parent_pos).cross y_axis
            | none => z0
          else z0
        let z2 :=
          if z1.lengthSq = 0 then
            (if |y_axis.y| < 99 / 100 then (⟨0, 1, 0⟩ : Vec3) else ⟨1, 0, 0⟩).cross y_axis
          else z1
        let z_axis := z2.normalize
        let x_axis := (y_axis.cross z_axis).normalize
        let z_final := (x_axis.cross y_axis).normalize
        some (quatFromRotationMatrix (Mat3.makeBasis x_axis y_axis z_final))

/-- One step of the first `forEach` map-building loop: the rest rotation of
bone `i` keyed by its name. -/
def rest_rotation_entry (bones : List BoneData) (forward : Vec3) (i : Nat) :
    Option (String × Quat) :=
  match bones.get? i with
  | none => none
  | some b => (compute_rest_rotation bones i forward).map fun q => (b.name, q)

/-- The `original_rest_rotations` map. -/
def rest_rotations_map (bones : List BoneData) (forward : Vec3) :
    List (String × Quat) :=
  mapFold (rest_rotation_entry bones forward) (List.range bones.length) []

/-- One step of the final `forEach` loop of
`get_rest_pose_rotation_corrections`: skip bones missing from the original
map or without an edited rest rotation, form
`edited_rest_rotation.invert().multiply(original_rest_rotation)`, and keep it
only when `1 - |w| > 1e-5`. -/
def correction_entry (edited : List BoneData) (originalMap : List (String × Quat))
    (forward : Vec3) (i : Nat) : Option (String × Quat) :=
  match edited.get? i with
  | none => none
  | some bone =>
    match mapGet originalMap bone.name with
    | none => none
    | some original_rest_rotation =>
      match compute_rest_rotation edited i forward with
      | none => none
      | some edited_rest_rotation =>
        let correction := Quat.mul edited_rest_rotation.conjugate original_rest_rotation
        if 1 / 100000 < 1 - |correction.w| then some (bone.name, correction)
        else none

/-- The mutable solver state of `StepEditSkeleton` that
`get_rest_pose_rotation_corrections` reads and writes: the three.js skeleton
bone list and the stored original rest-pose snapshot. -/
structure SolverState where
  bones : List BoneData
  original_bone_transforms : Option (List BoneTransformState)
deriving Repr

/-- `StepEditSkeleton.get_rest_pose_rotation_corrections`: capture the
current (edited) transforms; restore the originals; compute the forward
vector and each bone's original rest rotation; restore the edited
transforms; compute each bone's edited rest rotation and the filtered
correction map.  The pair returned is (corrections, final bone list) — the
source mutates `this.threejs_skeleton` in place, so the final bone list is
the function's observable frame effect. -/
def get_rest_pose_rotation_corrections (st : SolverState) :
    List (String × Quat) × List BoneData :=
  match st.original_bone_transforms with
  | none => ([], st.bones)
  | some orig =>
    let current_bone_transforms := store_bone_transforms st.bones
    let restored := restore_bone_transforms st.bones orig
    let forward := compute_forward_vector restored
    let original_rest_rotations := rest_rotations_map restored forward
    let edited := restore_bone_transforms restored current_bone_transforms
    let corrections :=
      mapFold (correction_entry edited original_rest_rotations forward)
        (List.range edited.length) []
    (corrections, edited)

end M2M

namespace M2M

/-- The mirror-bone search of `StepEditSkeleton.apply_mirror_mode`: a
`forEach` over the skeleton's bones that overwrites its candidate on every
bone whose base name matches the selected bone's and whose name differs, so
the last such bone in sequence order wins.  The index is kept alongside the
bone. -/
def find_mirror_bone (bones : List BoneData) (selected_bone : BoneData) :
    Option (Nat × BoneData) :=
  let base_bone_name := calculate_bone_base_name selected_bone.name
  bones.enum.foldl
    (fun acc p =>
      if calculate_bone_base_name p.2.name == base_bone_name
          && p.2.name != selected_bone.name then some p
      else acc)
    none

/-- The write `apply_mirror_mode` performs on the mirror bone: for
`translate`, position `(-x, y, z)` of the selected bone's local position;
for `rotate`, the quaternion from the selected bone's Euler rotation with Y
and Z negated. -/
def mirror_edit (cosF sinF : ℚ → ℚ) (selected_bone : BoneData)
    (transform_type : String) (mirror_bone : BoneData) : BoneData :=
  let mb1 :=
    if transform_type = "translate" then
      { mirror_bone with
        position := ⟨-selected_bone.position.x, selected_bone.position.y,
          selected_bone.position.z⟩ }
    else mirror_bone
  if transform_type = "rotate" then
    { mb1 with
      quaternion := quatFromEuler cosF sinF
        ⟨selected_bone.rotation.x, -selected_bone.rotation.y,
         -selected_bone.rotation.z⟩ }
  else mb1

/-- `StepEditSkeleton.apply_mirror_mode`: find the mirror bone by base name;
when none exists return with no change (bones along the axis); otherwise
apply the translate or rotate mirror write to it and recompute its world
matrix (a no-op in this derived-world model). -/
def apply_mirror_mode (bones : List BoneData) (selected_bone : BoneData)
    (transform_type : String) (cosF sinF : ℚ → ℚ) : List BoneData :=
  match find_mirror_bone bones selected_bone with
  | none => bones
  | some p => bones.set p.1 (mirror_edit cosF sinF selected_bone transform_type p.2)

/-- The `position` buffer attribute of a mesh geometry: the vertex list. -/
structure GeometryData where
  position : Option (List Vec3)
deriving Repr

/-- A mesh as `SnapToVolumeHandler` sees it: a geometry (possibly absent,
matching the two guards in the source) and a world matrix. -/
structure MeshData where
  geometry : Option GeometryData
  matrixWorld : Affine
deriving Repr

/-- One raycast hit as returned by the external three.js raycaster
(`Raycaster.intersectObjects`): the hit point in world space and the struck
mesh.  Ray–geometry intersection is an external collaborator (spec §1), so
the hit list is an input to the model. -/
structure Intersection where
  point : Vec3
  object : MeshData
deriving Repr

/-- The fixed `search_radius` of `SnapToVolumeHandler` (0.15). -/
def search_radius : ℚ := 15 / 100

/-- `vertex.distanceTo(local_intersection) < this.search_radius`, taken on
squares (exactly equivalent: both sides are nonnegative). -/
def within_search_radius (vertex local_intersection : Vec3) : Bool :=
  decide (Vec3.distSq vertex local_intersection < search_radius ^ 2)

/-- `Box3.expandByPoint` on a possibly-empty box; `none` is the fresh empty
box (min +∞ / max −∞ in three.js, representable here only as absence). -/
def boxExpand : Option (Vec3 × Vec3) → Vec3 → Option (Vec3 × Vec3)
  | none, p => some (p, p)
  | some (mn, mx), p =>
    some (⟨min mn.x p.x, min mn.y p.y, min mn.z p.z⟩,
      ⟨max mx.x p.x, max mx.y p.y, max mx.z p.z⟩)

/-- `Box3.setFromPoints`: expand an empty box by every point in turn. -/
def boxFromPoints (points : List Vec3) : Option (Vec3 × Vec3) :=
  points.foldl boxExpand none

/-- `Box3.getCenter`: the midpoint of min and max, and the zero vector for
the empty box (three.js's behavior; the source only calls it on a nonempty
box). -/
def boxCenter : Option (Vec3 × Vec3) → Vec3
  | none => Vec3.zero
  | some (mn, mx) => ⟨(mn.x + mx.x) / 2, (mn.y + mx.y) / 2, (mn.z + mx.z) / 2⟩

/-- `SnapToVolumeHandler.calculate_local_volume_center`: guard on a missing
geometry or position attribute; transform the hit point into the mesh's
local space with the inverted world matrix; gather the vertices within
`search_radius` of it; if any were found return the center of their bounding
box mapped back to world space, else the raw intersection point. -/
def calculate_local_volume_center (mesh : MeshData) (intersection_point : Vec3) :
    Vec3 :=
  match mesh.geometry with
  | none => intersection_point
  | some geometry =>
    match geometry.position with
    | none => intersection_point
    | some positions =>
      let local_intersection :=
        (Affine.invert mesh.matrixWorld).apply intersection_point
      let nearby_vertices :=
        positions.filter fun vertex => within_search_radius vertex local_intersection
      if nearby_vertices.isEmpty then intersection_point
      else mesh.matrixWorld.apply (boxCenter (boxFromPoints nearby_vertices))

/-- `SnapToVolumeHandler.snap_bone_to_volume_at_mouse_position`.  The
raycast against the mesh collection is external; its result list is the
`intersections` input.  With no meshes or no intersection the skeleton is
returned untouched.  Otherwise the first hit's volume center is assigned to
the bone (through the parent's inverted world matrix when the bone has a
parent), and mirror mode is applied when enabled. -/
def snap_bone_to_volume_at_mouse_position (bones : List BoneData)
    (meshes_to_test : List MeshData) (intersections : List Intersection)
    (boneIdx : Nat) (mirror_mode_enabled : Bool) (cosF sinF : ℚ → ℚ) :
    List BoneData :=
  if meshes_to_test.isEmpty then bones
  else
    match intersections with
    | [] => bones
    | intersection :: _ =>
      let mesh := intersection.object
      let volume_center := calculate_local_volume_center mesh intersection.point
      match bones.get? boneIdx with
      | none => bones
      | some bone =>
        let local_position :=
          match bone.parent with
          | some p => (Affine.invert (worldAffine bones p)).apply volume_center
          | none => volume_center
        let moved := { bone with position := local_position }
        let bones1 := bones.set boneIdx moved
        if mirror_mode_enabled then apply_mirror_mode bones1 moved "translate" cosF sinF
        else bones1

/-- A bone as the BVH importer sees it: a scene-graph node identity and the
identity of its parent node, if it has one.  Object reference equality
(`Array.includes`) is modelled by comparing identities. -/
structure BVHBone where
  ident : Nat
  parentIdent : Option Nat
deriving DecidableEq, Repr

/-- The skeleton produced by the external `BVHLoader`: its bone array. -/
structure BVHSkeleton where
  bones : List BVHBone
deriving DecidableEq, Repr

/-- The armature container built by `createArmatureFromSkeleton`. -/
structure BVHArmature where
  name : String
  children : List BVHBone
deriving DecidableEq, Repr

/-- The root test of `BVHImporter.findRootBone`: the bone's parent, if
present, is not a member of the skeleton's bone array. -/
def bvh_is_root (sk : BVHSkeleton) (bone : BVHBone) : Bool :=
  match bone.parentIdent with
  | none => true
  | some p => !(sk.bones.any fun c => c.ident = p)

/-- `BVHImporter.findRootBone`: the first bone passing the root test, else
the first bone of the array, else `null`. -/
def findRootBone (sk : BVHSkeleton) : Option BVHBone :=
  match sk.bones.find? (bvh_is_root sk) with
  | some bone => some bone
  | none => sk.bones.head?

/-- `BVHImporter.createArmatureFromSkeleton`: a fresh armature named
`BVH_Armature` whose only child is the found root bone (no child when the
skeleton has no bones). -/
def createArmatureFromSkeleton (sk : BVHSkeleton) : BVHArmature :=
  match findRootBone sk with
  | some rootBone => ⟨"BVH_Armature", [rootBone]⟩
  | none => ⟨"BVH_Armature", []⟩

end M2M

namespace M2M

lemma restore_nil : ∀ (s : List BoneData), restore_bone_transforms s [] = s
  | [] => rfl
  | _ :: _ => rfl

lemma restore_store_self : ∀ (s : List BoneData),
    restore_bone_transforms s (store_bone_transforms s) = s
  | [] => rfl
  | b :: bs => by
    simp only [restore_bone_transforms, store_bone_transforms, List.map]
    exact congrArg (_ :: ·) (restore_store_self bs)

lemma restore_store_roundtrip :
    ∀ (s : List BoneData) (o : List BoneTransformState),
      restore_bone_transforms (restore_bone_transforms s o) (store_bone_transforms s) = s
  | s, [] => by rw [restore_nil]; exact restore_store_self s
  | [], _ :: _ => rfl
  | b :: bs, t :: ts => by
    simp only [restore_bone_transforms, store_bone_transforms, List.map]
    exact congrArg (_ :: ·) (restore_store_roundtrip bs ts)

end M2M

namespace M2M

/-- C6: `get_rest_pose_rotation_corrections` leaves every bone's local
transform (position, rotation quaternion, scale) observably unchanged — it
captures the edited transforms, temporarily restores the originals, and
restores the captured transforms before returning, so the skeleton it leaves
behind is exactly the one it started from. -/
theorem C6_corrections_leave_every_bone_transform_unchanged (st : SolverState) :
    (get_rest_pose_rotation_corrections st).2 = st.bones := by
  unfold get_rest_pose_rotation_corrections
  cases h : st.original_bone_transforms with
  | none => rfl
  | some orig => exact restore_store_roundtrip st.bones orig

/-- C9: a snap-to-volume invocation whose camera ray meets no mesh of the
target collection is a no-op — the selected bone's position and every other
bone transform are left unchanged. -/
theorem C9_snap_without_intersection_is_noop (bones : List BoneData)
    (meshes_to_test : List MeshData) (boneIdx : Nat) (mirror_mode_enabled : Bool)
    (cosF sinF : ℚ → ℚ) :
    snap_bone_to_volume_at_mouse_position bones meshes_to_test [] boneIdx
      mirror_mode_enabled cosF sinF = bones := by
  unfold snap_bone_to_volume_at_mouse_position
  split <;> rfl

end M2M

namespace M2M

/-- A `forEach` that overwrites its candidate on every element satisfying
`P` ends holding the last satisfying element (the start value when none
does). -/
lemma foldl_pick_last {α : Type} (q : α → Bool) :
    ∀ (l : List α) (a : Option α),
      l.foldl (fun acc p => if q p then some p else acc) a =
        ((l.filter q).getLast?).or a := by
  intro l
  induction l with
  | nil => intro a; rfl
  | cons x t ih =>
    intro a
    rw [List.foldl_cons, ih]
    by_cases hx : q x = true
    · have hfc : List.filter q (x :: t) = x :: List.filter q t := by
        rw [List.filter_cons, if_pos hx]
      rw [hfc, if_pos hx]
      cases hft : List.filter q t with
      | nil => rfl
      | cons y rest =>
        rw [List.getLast?_cons_cons]
        cases hg : (y :: rest).getLast? with
        | none => exact absurd (List.getLast?_eq_none_iff.mp hg) (by simp)
        | some z => rfl
    · have hfc : List.filter q (x :: t) = List.filter q t := by
        rw [List.filter_cons, if_neg hx]
      rw [hfc, if_neg hx]

end M2M

namespace M2M

lemma getLast?_some_mem {α : Type} {l : List α} {a : α} (h : l.getLast? = some a) :
    a ∈ l := by
  obtain ⟨hne, hx⟩ := List.mem_getLast?_eq_getLast (l := l) (x := a)
    (by simp [Option.mem_def, h])
  rw [hx]
  exact List.getLast_mem hne

/-- The bones `apply_mirror_mode`'s search loop matches: same base name as
the selected bone, different name; paired with their index. -/
def mirror_matches (bones : List BoneData) (selected_bone : BoneData) :
    List (Nat × BoneData) :=
  bones.enum.filter fun p =>
    calculate_bone_base_name p.2.name == calculate_bone_base_name selected_bone.name
      && p.2.name != selected_bone.name

/-- The overwrite-on-match `forEach` of `apply_mirror_mode` holds the last
matching bone when it finishes. -/
lemma find_mirror_bone_eq_getLast (bones : List BoneData) (selected_bone : BoneData) :
    find_mirror_bone bones selected_bone =
      ((mirror_matches bones selected_bone).getLast?).or none := by
  simp only [find_mirror_bone, mirror_matches]
  exact foldl_pick_last
    (fun p : Nat × BoneData =>
      calculate_bone_base_name p.2.name == calculate_bone_base_name selected_bone.name
        && p.2.name != selected_bone.name)
    bones.enum none

lemma find_mirror_bone_get? {bones : List BoneData} {selected_bone : BoneData}
    {j : Nat} {mb : BoneData}
    (h : find_mirror_bone bones selected_bone = some (j, mb)) :
    bones.get? j = some mb := by
  rw [find_mirror_bone_eq_getLast] at h
  have hmem : (j, mb) ∈ mirror_matches bones selected_bone := by
    cases hg : (mirror_matches bones selected_bone).getLast? with
    | none =>
      rw [hg] at h
      exact Option.noConfusion h
    | some x =>
      rw [hg] at h
      have h' : some x = some (j, mb) := h
      have hx : x = (j, mb) := Option.some.inj h'
      exact hx ▸ getLast?_some_mem hg
  have := (List.mem_filter.mp hmem).1
  exact List.mem_enum_iff_get?.mp this

end M2M

namespace M2M

/-- C3: when the selected bone has a mirror pair, `apply_mirror_mode` with
kind `translate` sets the mirror bone's local position to `(-x, y, z)` of
the selected bone's local position — its y and z become exactly the
source's. -/
theorem C3_mirror_translate_negates_x_only (bones : List BoneData)
    (selected_bone : BoneData) (cosF sinF : ℚ → ℚ) (j : Nat) (mb : BoneData)
    (hfind : find_mirror_bone bones selected_bone = some (j, mb)) :
    (apply_mirror_mode bones selected_bone "translate" cosF sinF).get? j =
      some { mb with
        position := ⟨-selected_bone.position.x, selected_bone.position.y,
          selected_bone.position.z⟩ } := by
  have hget := find_mirror_bone_get? hfind
  unfold apply_mirror_mode
  rw [hfind, List.get?_set_eq, hget]
  have hrot : ("translate" : String) ≠ "rotate" := by decide
  simp [mirror_edit, hrot]

/-- C3 witness: mirroring a translate edit on `LeftArm` with pair `RightArm`
yields mirror position `(-x, y, z)` of the source. -/
theorem C3_witness :
    (apply_mirror_mode
        [⟨"root", none, ⟨0, 0, 0⟩, ⟨0, 0, 0⟩, ⟨0, 0, 0, 1⟩, ⟨1, 1, 1⟩⟩,
         ⟨"LeftArm", some 0, ⟨2, 3, 4⟩, ⟨1, 2, 3⟩, ⟨0, 0, 0, 1⟩, ⟨1, 1, 1⟩⟩,
         ⟨"RightArm", some 0, ⟨-5, 6, 7⟩, ⟨0, 0, 0⟩, ⟨0, 0, 0, 1⟩, ⟨1, 1, 1⟩⟩]
        ⟨"LeftArm", some 0, ⟨2, 3, 4⟩, ⟨1, 2, 3⟩, ⟨0, 0, 0, 1⟩, ⟨1, 1, 1⟩⟩
        "translate" (fun _ => 1) (fun _ => 0)).get? 2 =
      some ⟨"RightArm", some 0, ⟨-2, 3, 4⟩, ⟨0, 0, 0⟩, ⟨0, 0, 0, 1⟩, ⟨1, 1, 1⟩⟩ :=
  C3_mirror_translate_negates_x_only _ _ _ _ 2
    ⟨"RightArm", some 0, ⟨-5, 6, 7⟩, ⟨0, 0, 0⟩, ⟨0, 0, 0, 1⟩, ⟨1, 1, 1⟩⟩
    (by decide)

/-- C7: when the selected bone has a mirror pair, `apply_mirror_mode` with
kind `rotate` sets the mirror bone's quaternion to the one composed (via
`setFromEuler`) from the source's Euler angles with Y and Z negated and X
kept — not a generic quaternion reflection. -/
theorem C7_mirror_rotate_negates_euler_y_z (bones : List BoneData)
    (selected_bone : BoneData) (cosF sinF : ℚ → ℚ) (j : Nat) (mb : BoneData)
    (hfind : find_mirror_bone bones selected_bone = some (j, mb)) :
    (apply_mirror_mode bones selected_bone "rotate" cosF sinF).get? j =
      some { mb with
        quaternion := quatFromEuler cosF sinF
          ⟨selected_bone.rotation.x, -selected_bone.rotation.y,
            -selected_bone.rotation.z⟩ } := by
  have hget := find_mirror_bone_get? hfind
  unfold apply_mirror_mode
  rw [hfind, List.get?_set_eq, hget]
  have htr : ("rotate" : String) ≠ "translate" := by decide
  simp [mirror_edit, htr]

/-- C7 witness: the rotate mirror write on the `LeftArm`/`RightArm` pair
composes the quaternion from `(x, -y, -z)` of the source's Euler angles. -/
theorem C7_witness :
    (apply_mirror_mode
        [⟨"root", none, ⟨0, 0, 0⟩, ⟨0, 0, 0⟩, ⟨0, 0, 0, 1⟩, ⟨1, 1, 1⟩⟩,
         ⟨"LeftArm", some 0, ⟨2, 3, 4⟩, ⟨1, 2, 3⟩, ⟨0, 0, 0, 1⟩, ⟨1, 1, 1⟩⟩,
         ⟨"RightArm", some 0, ⟨-5, 6, 7⟩, ⟨0, 0, 0⟩, ⟨0, 0, 0, 1⟩, ⟨1, 1, 1⟩⟩]
        ⟨"LeftArm", some 0, ⟨2, 3, 4⟩, ⟨1, 2, 3⟩, ⟨0, 0, 0, 1⟩, ⟨1, 1, 1⟩⟩
        "rotate" (fun _ => 1) (fun _ => 0)).get? 2 =
      some ⟨"RightArm", some 0, ⟨-5, 6, 7⟩, ⟨0, 0, 0⟩,
        quatFromEuler (fun _ => 1) (fun _ => 0) ⟨1, -2, -3⟩, ⟨1, 1, 1⟩⟩ :=
  C7_mirror_rotate_negates_euler_y_z _ _ _ _ 2
    ⟨"RightArm", some 0, ⟨-5, 6, 7⟩, ⟨0, 0, 0⟩, ⟨0, 0, 0, 1⟩, ⟨1, 1, 1⟩⟩
    (by decide)

/-- C8: when no other bone of the skeleton shares the selected bone's base
name, `apply_mirror_mode` returns without touching any bone — a documented
no-op, not an error. -/
theorem C8_mirror_without_pair_is_noop (bones : List BoneData)
    (selected_bone : BoneData) (transform_type : String) (cosF sinF : ℚ → ℚ)
    (h : ∀ b ∈ bones,
      calculate_bone_base_name b.name = calculate_bone_base_name selected_bone.name →
        b.name = selected_bone.name) :
    apply_mirror_mode bones selected_bone transform_type cosF sinF = bones := by
  have hnil : mirror_matches bones selected_bone = [] := by
    unfold mirror_matches
    rw [List.filter_eq_nil_iff]
    intro p hp
    have hpb : p.2 ∈ bones := List.get?_mem (List.mem_enum_iff_get?.mp hp)
    by_cases hb : calculate_bone_base_name p.2.name =
        calculate_bone_base_name selected_bone.name
    · have hname := h p.2 hpb hb
      simp [hname]
    · simp [hb]
  unfold apply_mirror_mode
  rw [find_mirror_bone_eq_getLast, hnil]
  rfl

/-- C8 witness: mirroring the axial bone `Spine` (no pair) changes
nothing. -/
theorem C8_witness :
    apply_mirror_mode
        [⟨"root", none, ⟨0, 0, 0⟩, ⟨0, 0, 0⟩, ⟨0, 0, 0, 1⟩, ⟨1, 1, 1⟩⟩,
         ⟨"Spine", some 0, ⟨0, 2, 0⟩, ⟨0, 0, 0⟩, ⟨0, 0, 0, 1⟩, ⟨1, 1, 1⟩⟩]
        ⟨"Spine", some 0, ⟨0, 2, 0⟩, ⟨0, 0, 0⟩, ⟨0, 0, 0, 1⟩, ⟨1, 1, 1⟩⟩
        "translate" (fun _ => 1) (fun _ => 0) =
      [⟨"root", none, ⟨0, 0, 0⟩, ⟨0, 0, 0⟩, ⟨0, 0, 0, 1⟩, ⟨1, 1, 1⟩⟩,
       ⟨"Spine", some 0, ⟨0, 2, 0⟩, ⟨0, 0, 0⟩, ⟨0, 0, 0, 1⟩, ⟨1, 1, 1⟩⟩] :=
  C8_mirror_without_pair_is_noop _ _ _ _ _ (by decide)

/-- C10: when more than one other bone shares the selected bone's base name,
the overwrite-on-match search leaves the mirror edit applied to the last
such bone in skeleton order, and every other bone is untouched — exactly one
bone besides the source is modified. -/
theorem C10_mirror_edit_hits_last_match_only (bones : List BoneData)
    (selected_bone : BoneData) (transform_type : String) (cosF sinF : ℚ → ℚ)
    (j : Nat) (mb : BoneData)
    (hmany : 2 ≤ (mirror_matches bones selected_bone).length)
    (hlast : (mirror_matches bones selected_bone).getLast? = some (j, mb)) :
    apply_mirror_mode bones selected_bone transform_type cosF sinF =
        bones.set j (mirror_edit cosF sinF selected_bone transform_type mb)
      ∧ ∀ k, k ≠ j →
        (apply_mirror_mode bones selected_bone transform_type cosF sinF).get? k =
          bones.get? k := by
  have hmode : apply_mirror_mode bones selected_bone transform_type cosF sinF =
      bones.set j (mirror_edit cosF sinF selected_bone transform_type mb) := by
    unfold apply_mirror_mode
    rw [find_mirror_bone_eq_getLast, hlast]
    rfl
  refine ⟨hmode, fun k hk => ?_⟩
  rw [hmode]
  exact List.get?_set_ne _ _ (fun hjk => hk hjk.symm)

/-- C10 witness: with three bones of base name `arm`, the selected `LeftArm`
mirrors onto the last match (`Arm`, index 2), and the other entries are left
as they were. -/
theorem C10_witness :
    apply_mirror_mode
        [⟨"LeftArm", some 0, ⟨2, 3, 4⟩, ⟨0, 0, 0⟩, ⟨0, 0, 0, 1⟩, ⟨1, 1, 1⟩⟩,
         ⟨"RightArm", some 0, ⟨1, 1, 1⟩, ⟨0, 0, 0⟩, ⟨0, 0, 0, 1⟩, ⟨1, 1, 1⟩⟩,
         ⟨"Arm", some 0, ⟨9, 9, 9⟩, ⟨0, 0, 0⟩, ⟨0, 0, 0, 1⟩, ⟨1, 1, 1⟩⟩]
        ⟨"LeftArm", some 0, ⟨2, 3, 4⟩, ⟨0, 0, 0⟩, ⟨0, 0, 0, 1⟩, ⟨1, 1, 1⟩⟩
        "translate" (fun _ => 1) (fun _ => 0) =
      [⟨"LeftArm", some 0, ⟨2, 3, 4⟩, ⟨0, 0, 0⟩, ⟨0, 0, 0, 1⟩, ⟨1, 1, 1⟩⟩,
       ⟨"RightArm", some 0, ⟨1, 1, 1⟩, ⟨0, 0, 0⟩, ⟨0, 0, 0, 1⟩, ⟨1, 1, 1⟩⟩,
       ⟨"Arm", some 0, ⟨9, 9, 9⟩, ⟨0, 0, 0⟩, ⟨0, 0, 0, 1⟩, ⟨1, 1, 1⟩⟩].set 2
        (mirror_edit (fun _ => 1) (fun _ => 0)
          ⟨"LeftArm", some 0, ⟨2, 3, 4⟩, ⟨0, 0, 0⟩, ⟨0, 0, 0, 1⟩, ⟨1, 1, 1⟩⟩
          "translate"
          ⟨"Arm", some 0, ⟨9, 9, 9⟩, ⟨0, 0, 0⟩, ⟨0, 0, 0, 1⟩, ⟨1, 1, 1⟩⟩) :=
  (C10_mirror_edit_hits_last_match_only _ _ _ _ _ 2
    ⟨"Arm", some 0, ⟨9, 9, 9⟩, ⟨0, 0, 0⟩, ⟨0, 0, 0, 1⟩, ⟨1, 1, 1⟩⟩
    (by decide) (by decide)).1

end M2M

namespace M2M

lemma find?_of_unique {α : Type} (p : α → Bool) :
    ∀ (l : List α) (b : α), b ∈ l → p b = true → (∀ c ∈ l, p c = true → c = b) →
      l.find? p = some b := by
  intro l
  induction l with
  | nil => intro b hb; exact absurd hb (List.not_mem_nil b)
  | cons x t ih =>
    intro b hb hpb huniq
    by_cases hx : p x = true
    · have hxb : x = b := huniq x (List.mem_cons_self x t) hx
      rw [List.find?_cons, hx]
      exact congrArg some hxb
    · have hbt : b ∈ t := by
        cases List.mem_cons.mp hb with
        | inl h => exact absurd (h ▸ hpb) hx
        | inr h => exact h
      rw [List.find?_cons]
      rw [Bool.not_eq_true] at hx
      rw [hx]
      exact ih b hbt hpb fun c hc => huniq c (List.mem_cons_of_mem x hc)

/-- C5: after parsing, the importer selects as root the unique bone whose
parent, if present, is not a member of the skeleton's bone list; when no
bone qualifies it falls back to the first bone in traversal order.  The
found root is the single child wrapped in the returned `BVH_Armature`. -/
theorem C5_importer_root_bone_selection (sk : BVHSkeleton) :
    (∀ b, b ∈ sk.bones → bvh_is_root sk b = true →
      (∀ c ∈ sk.bones, bvh_is_root sk c = true → c = b) →
      findRootBone sk = some b ∧ (createArmatureFromSkeleton sk).children = [b])
    ∧ ((∀ b ∈ sk.bones, bvh_is_root sk b = false) →
      findRootBone sk = sk.bones.head?
        ∧ (createArmatureFromSkeleton sk).children = sk.bones.head?.toList) := by
  constructor
  · intro b hb hroot huniq
    have hfind : sk.bones.find? (bvh_is_root sk) = some b :=
      find?_of_unique _ sk.bones b hb hroot huniq
    have hr : findRootBone sk = some b := by
      unfold findRootBone
      rw [hfind]
    refine ⟨hr, ?_⟩
    unfold createArmatureFromSkeleton
    rw [hr]
  · intro hnone
    have hfind : sk.bones.find? (bvh_is_root sk) = none := by
      rw [List.find?_eq_none]
      intro x hx
      rw [hnone x hx]
      exact Bool.false_ne_true
    have hr : findRootBone sk = sk.bones.head? := by
      unfold findRootBone
      rw [hfind]
    refine ⟨hr, ?_⟩
    unfold createArmatureFromSkeleton
    rw [hr]
    cases sk.bones with
    | nil => rfl
    | cons x t => rfl

/-- C5 witness: in a two-bone skeleton whose first bone's parent lies
outside the bone array, that bone is the unique root and becomes the
armature's only child. -/
theorem C5_witness :
    findRootBone ⟨[⟨7, some 99⟩, ⟨8, some 7⟩]⟩ = some ⟨7, some 99⟩
      ∧ (createArmatureFromSkeleton ⟨[⟨7, some 99⟩, ⟨8, some 7⟩]⟩).children =
        [⟨7, some 99⟩] :=
  (C5_importer_root_bone_selection ⟨[⟨7, some 99⟩, ⟨8, some 7⟩]⟩).1
    ⟨7, some 99⟩ (by decide) (by decide) (by decide)

end M2M

namespace M2M

/-- The least element of a list of rationals (`0` for the empty list, which
no use below reaches). -/
def listMin : List ℚ → ℚ
  | [] => 0
  | h :: t => t.foldl min h

/-- The greatest element of a list of rationals. -/
def listMax : List ℚ → ℚ
  | [] => 0
  | h :: t => t.foldl max h

/-- Follows the spec's words: the center of the axis-aligned bounding box of
a set of points is the componentwise midpoint of their minima and maxima. -/
def aabb_center_of (points : List Vec3) : Vec3 :=
  ⟨(listMin (points.map Vec3.x) + listMax (points.map Vec3.x)) / 2,
   (listMin (points.map Vec3.y) + listMax (points.map Vec3.y)) / 2,
   (listMin (points.map Vec3.z) + listMax (points.map Vec3.z)) / 2⟩

lemma boxFold_some :
    ∀ (t : List Vec3) (mn mx : Vec3),
      t.foldl boxExpand (some (mn, mx)) =
        some
          (⟨t.foldl (fun a v => min a v.x) mn.x, t.foldl (fun a v => min a v.y) mn.y,
            t.foldl (fun a v => min a v.z) mn.z⟩,
           ⟨t.foldl (fun a v => max a v.x) mx.x, t.foldl (fun a v => max a v.y) mx.y,
            t.foldl (fun a v => max a v.z) mx.z⟩)
  | [], mn, mx => rfl
  | v :: t, mn, mx => by
    rw [List.foldl_cons]
    exact boxFold_some t ⟨min mn.x v.x, min mn.y v.y, min mn.z v.z⟩
      ⟨max mx.x v.x, max mx.y v.y, max mx.z v.z⟩

lemma boxCenter_eq_aabb_center (v : Vec3) (rest : List Vec3) :
    boxCenter (boxFromPoints (v :: rest)) = aabb_center_of (v :: rest) := by
  unfold boxFromPoints
  rw [List.foldl_cons]
  show boxCenter (rest.foldl boxExpand (some (v, v))) = _
  rw [boxFold_some rest v v]
  unfold boxCenter aabb_center_of listMin listMax
  simp only [List.map_cons, List.foldl_map]

/-- C4: on a ray-mesh hit, `calculate_local_volume_center` transforms the
hit point into the struck mesh's local space, and the result is the center
of the axis-aligned bounding box of all mesh vertices within the fixed
search radius 0.15 of that local point (mapped back through the mesh's world
matrix); when no vertex lies within the radius, the raw intersection point
is returned.  The nonzero determinant keeps the model's exact inverse
matching three.js, which degenerates to non-finite coordinates on singular
matrices. -/
theorem C4_volume_center_is_aabb_center_of_nearby_vertices (mesh : MeshData)
    (intersection_point : Vec3) (verts : List Vec3)
    (hgeom : mesh.geometry = some ⟨some verts⟩)
    (hdet : mesh.matrixWorld.linear.det ≠ 0) :
    calculate_local_volume_center mesh intersection_point =
      if (verts.filter fun v => within_search_radius v
            ((Affine.invert mesh.matrixWorld).apply intersection_point)).isEmpty
      then intersection_point
      else mesh.matrixWorld.apply (aabb_center_of
        (verts.filter fun v => within_search_radius v
          ((Affine.invert mesh.matrixWorld).apply intersection_point))) := by
  simp only [calculate_local_volume_center, hgeom]
  cases hnear : verts.filter fun v => within_search_radius v
      ((Affine.invert mesh.matrixWorld).apply intersection_point) with
  | nil => simp [hnear]
  | cons v rest =>
    simp only [List.isEmpty_cons, Bool.false_eq_true, if_false]
    rw [boxCenter_eq_aabb_center]

/-- C4 witness: with the identity world matrix and vertices
`(0,0,0)`, `(1/10,0,0)`, `(5,5,5)`, a hit at the origin gathers the vertices
within radius 0.15 and yields the center of their bounding box. -/
theorem C4_witness :
    calculate_local_volume_center
        ⟨some ⟨some [⟨0, 0, 0⟩, ⟨1 / 10, 0, 0⟩, ⟨5, 5, 5⟩]⟩, Affine.id⟩ ⟨0, 0, 0⟩ =
      if ([⟨0, 0, 0⟩, ⟨1 / 10, 0, 0⟩, ⟨5, 5, 5⟩].filter fun v =>
            within_search_radius v
              ((Affine.invert Affine.id).apply ⟨0, 0, 0⟩)).isEmpty
      then ⟨0, 0, 0⟩
      else Affine.apply Affine.id (aabb_center_of
        ([⟨0, 0, 0⟩, ⟨1 / 10, 0, 0⟩, ⟨5, 5, 5⟩].filter fun v =>
          within_search_radius v ((Affine.invert Affine.id).apply ⟨0, 0, 0⟩))) :=
  C4_volume_center_is_aabb_center_of_nearby_vertices _ _ _ rfl
    (by norm_num [Affine.id, Mat3.id, Mat3.det])

end M2M

namespace M2M

lemma find?_filter_of_imp {α : Type} (p q : α → Bool)
    (h : ∀ x, p x = true → q x = true) :
    ∀ l : List α, (l.filter q).find? p = l.find? p := by
  intro l
  induction l with
  | nil => rfl
  | cons x t ih =>
    rw [List.filter_cons]
    by_cases hq : q x = true
    · rw [if_pos hq, List.find?_cons, List.find?_cons]
      cases hp : p x with
      | true => rfl
      | false => exact ih
    · rw [Bool.not_eq_true] at hq
      rw [hq, if_neg Bool.false_ne_true, ih, List.find?_cons]
      cases hp : p x with
      | true => exact absurd (h x hp) (by rw [hq]; exact Bool.false_ne_true)
      | false => rfl

lemma mapGet_mapSet_self (m : List (String × Quat)) (k : String) (v : Quat) :
    mapGet (mapSet m k v) k = some v := by
  simp [mapGet, mapSet, List.find?_cons]

lemma mapGet_mapSet_other (m : List (String × Quat)) (k k' : String) (v : Quat)
    (h : k' ≠ k) : mapGet (mapSet m k' v) k = mapGet m k := by
  unfold mapGet mapSet
  rw [List.find?_cons]
  cases hd : decide ((k', v).1 = k) with
  | true => exact absurd (imp_iff_not_or.mpr (Or.inr (of_decide_eq_true hd)) trivial) h
  | false =>
    rw [find?_filter_of_imp _ _ ?_]
    intro x hx
    have hxk : x.1 = k := of_decide_eq_true hx
    simp [hxk, h.symm]

lemma mapFold_all_none (f : Nat → Option (String × Quat)) :
    ∀ (indices : List Nat) (acc : List (String × Quat)),
      (∀ i ∈ indices, f i = none) → mapFold f indices acc = acc := by
  intro l
  induction l with
  | nil => intro acc _; rfl
  | cons i t ih =>
    intro acc h
    have hstep : mapFold f (i :: t) acc = mapFold f t acc := by
      unfold mapFold
      rw [List.foldl_cons, h i (List.mem_cons_self i t)]
    rw [hstep]
    exact ih acc fun j hj => h j (List.mem_cons_of_mem i hj)

lemma mapFold_skip (f : Nat → Option (String × Quat)) (n : String) :
    ∀ (indices : List Nat) (acc : List (String × Quat)),
      (∀ i ∈ indices, ∀ kv, f i = some kv → kv.1 ≠ n) →
      mapGet (mapFold f indices acc) n = mapGet acc n := by
  intro l
  induction l with
  | nil => intro acc _; rfl
  | cons i t ih =>
    intro acc h
    have htail := fun j hj => h j (List.mem_cons_of_mem i hj)
    cases hfi : f i with
    | none =>
      have hstep : mapFold f (i :: t) acc = mapFold f t acc := by
        unfold mapFold
        rw [List.foldl_cons, hfi]
      rw [hstep]
      exact ih acc htail
    | some kv =>
      have hstep : mapFold f (i :: t) acc = mapFold f t (mapSet acc kv.1 kv.2) := by
        unfold mapFold
        rw [List.foldl_cons, hfi]
      rw [hstep, ih _ htail,
        mapGet_mapSet_other acc n kv.1 kv.2 (h i (List.mem_cons_self i t) kv hfi)]

lemma mapFold_append (f : Nat → Option (String × Quat)) (l₁ l₂ : List Nat)
    (acc : List (String × Quat)) :
    mapFold f (l₁ ++ l₂) acc = mapFold f l₂ (mapFold f l₁ acc) :=
  List.foldl_append _ _ _ _

lemma mapFold_at (f : Nat → Option (String × Quat)) (pre post : List Nat) (i : Nat)
    (n : String)
    (hpre : ∀ j ∈ pre, ∀ kv, f j = some kv → kv.1 ≠ n)
    (hpost : ∀ j ∈ post, ∀ kv, f j = some kv → kv.1 ≠ n) :
    mapGet (mapFold f (pre ++ i :: post) []) n =
      match f i with
      | some kv => if kv.1 = n then some kv.2 else none
      | none => none := by
  rw [mapFold_append]
  have hbase : mapGet (mapFold f pre []) n = none := mapFold_skip f n pre [] hpre
  cases hfi : f i with
  | none =>
    have hstep : mapFold f (i :: post) (mapFold f pre []) =
        mapFold f post (mapFold f pre []) := by
      unfold mapFold
      rw [List.foldl_cons, hfi]
    rw [hstep, mapFold_skip f n post _ hpost, hbase]
  | some kv =>
    have hstep : mapFold f (i :: post) (mapFold f pre []) =
        mapFold f post (mapSet (mapFold f pre []) kv.1 kv.2) := by
      unfold mapFold
      rw [List.foldl_cons, hfi]
    rw [hstep, mapFold_skip f n post _ hpost]
    by_cases hk : kv.1 = n
    · rw [← hk, mapGet_mapSet_self]
      simp
    · rw [mapGet_mapSet_other _ _ _ _ hk, hbase]
      simp [hk]

end M2M

namespace M2M

lemma range_split (L i : Nat) (h : i < L) :
    List.range L =
      List.range i ++ i :: ((List.range (L - i - 1)).map fun t => i + 1 + t) := by
  have hL : L = i + ((L - i - 1) + 1) := by omega
  rw [hL, List.range_add, List.range_succ_eq_map, List.map_cons, List.map_map]
  have hfun : ((fun x => i + x) ∘ Nat.succ) = fun t => i + 1 + t := by
    funext t
    simp [Function.comp]
    omega
  rw [hfun, Nat.add_zero]
  have harg : i + ((L - i - 1) + 1) - i - 1 = L - i - 1 := by omega
  rw [harg]

lemma name_ne_of_nodup (bones : List BoneData)
    (h : (bones.map BoneData.name).Nodup) {i j : Nat} (hij : i ≠ j)
    {b b' : BoneData} (hi : bones.get? i = some b) (hj : bones.get? j = some b') :
    b.name ≠ b'.name := by
  intro heq
  apply hij
  have h1 : (bones.map BoneData.name).get? i = some b.name := by
    rw [List.get?_map, hi]
    rfl
  have h2 : (bones.map BoneData.name).get? j = some b'.name := by
    rw [List.get?_map, hj]
    rfl
  obtain ⟨hiL, _⟩ := List.get?_eq_some.mp hi
  have hiL' : i < (bones.map BoneData.name).length := by
    rw [List.length_map]
    exact hiL
  apply List.getElem?_inj hiL' h
  rw [← List.get?_eq_getElem?, ← List.get?_eq_getElem?, h1, h2, heq]

/-- A map built over all bone indices by a step that keys each entry by that
bone's name, looked up at the name of the bone at index `i`: with distinct
bone names it holds exactly the step's value at `i`. -/
lemma mapFold_get_of_keyed (E : List BoneData) (g : Nat → Option (String × Quat))
    (hkey : ∀ j kv, g j = some kv → ∃ bj, E.get? j = some bj ∧ kv.1 = bj.name)
    (hnodup : (E.map BoneData.name).Nodup)
    (i : Nat) (b : BoneData) (hi : E.get? i = some b) :
    mapGet (mapFold g (List.range E.length) []) b.name =
      (g i).map fun kv => kv.2 := by
  obtain ⟨hiL, _⟩ := List.get?_eq_some.mp hi
  rw [range_split E.length i hiL]
  have hside : ∀ j, j ≠ i → ∀ kv, g j = some kv → kv.1 ≠ b.name := by
    intro j hji kv hkv
    obtain ⟨bj, hbj, hkv1⟩ := hkey j kv hkv
    rw [hkv1]
    exact name_ne_of_nodup E hnodup hji hbj hi
  rw [mapFold_at g _ _ i b.name
    (fun j hj kv hkv => hside j (by have := List.mem_range.mp hj; omega) kv hkv)
    (fun j hj kv hkv => hside j ?_ kv hkv)]
  · cases hgi : g i with
    | none => rfl
    | some kv =>
      obtain ⟨bi, hbi, hkv1⟩ := hkey i kv hgi
      rw [hbi] at hi
      have hbb : bi = b := Option.some.inj hi
      simp [hkv1, hbb]
  · obtain ⟨t, _, ht⟩ := List.mem_map.mp hj
    omega

end M2M

namespace M2M

lemma rest_rotation_entry_keyed (bones : List BoneData) (forward : Vec3) :
    ∀ j kv, rest_rotation_entry bones forward j = some kv →
      ∃ bj, bones.get? j = some bj ∧ kv.1 = bj.name := by
  intro j kv h
  unfold rest_rotation_entry at h
  cases hb : bones.get? j with
  | none => rw [hb] at h; exact Option.noConfusion h
  | some bj =>
    rw [hb] at h
    cases hc : compute_rest_rotation bones j forward with
    | none => rw [hc] at h; exact Option.noConfusion h
    | some q =>
      rw [hc] at h
      have hkv : (bj.name, q) = kv := Option.some.inj h
      exact ⟨bj, rfl, by rw [← hkv]⟩

lemma correction_entry_keyed (edited : List BoneData)
    (originalMap : List (String × Quat)) (forward : Vec3) :
    ∀ j kv, correction_entry edited originalMap forward j = some kv →
      ∃ bj, edited.get? j = some bj ∧ kv.1 = bj.name := by
  intro j kv h
  cases hb : edited.get? j with
  | none =>
    simp only [correction_entry, hb] at h
    exact Option.noConfusion h
  | some bj =>
    refine ⟨bj, rfl, ?_⟩
    cases ho : mapGet originalMap bj.name with
    | none =>
      simp only [correction_entry, hb, ho] at h
      exact Option.noConfusion h
    | some qo =>
      cases hc : compute_rest_rotation edited j forward with
      | none =>
        simp only [correction_entry, hb, ho, hc] at h
        exact Option.noConfusion h
      | some qe =>
        simp only [correction_entry, hb, ho, hc] at h
        by_cases hcond : 1 / 100000 < 1 - |(Quat.mul qe.conjugate qo).w|
        · rw [if_pos hcond] at h
          rw [← Option.some.inj h]
        · rw [if_neg hcond] at h
          exact Option.noConfusion h

/-- Looking the rest-rotation map up at the name of the bone at index `i`
returns exactly that bone's computed rest rotation (bone names distinct). -/
lemma rest_rotations_map_get (bones : List BoneData) (forward : Vec3) (i : Nat)
    (b : BoneData) (hnodup : (bones.map BoneData.name).Nodup)
    (hi : bones.get? i = some b) :
    mapGet (rest_rotations_map bones forward) b.name =
      compute_rest_rotation bones i forward := by
  unfold rest_rotations_map
  rw [mapFold_get_of_keyed bones _ (rest_rotation_entry_keyed bones forward)
    hnodup i b hi]
  unfold rest_rotation_entry
  rw [hi]
  cases hc : compute_rest_rotation bones i forward with
  | none => rfl
  | some q => rfl

end M2M

namespace M2M

/-- C1: for every bone present in both rest-rotation maps, the correction
held in the returned map is `edited_rest_rotation⁻¹ × original_rest_rotation`
(conjugate composition, as three.js `invert` then `multiply`), and the bone
is omitted from the map exactly when `1 - |w| ≤ 1e-5`, i.e. the lookup
yields the correction precisely when `1 - |w| > 1e-5` and nothing
otherwise. -/
theorem C1_correction_value_and_epsilon_filter (st : SolverState)
    (orig : List BoneTransformState)
    (h0 : st.original_bone_transforms = some orig)
    (i : Nat) (b : BoneData) (qo qe : Quat)
    (hnodup : ((restore_bone_transforms (restore_bone_transforms st.bones orig)
      (store_bone_transforms st.bones)).map BoneData.name).Nodup)
    (hb : (restore_bone_transforms (restore_bone_transforms st.bones orig)
      (store_bone_transforms st.bones)).get? i = some b)
    (horig : mapGet
      (rest_rotations_map (restore_bone_transforms st.bones orig)
        (compute_forward_vector (restore_bone_transforms st.bones orig)))
      b.name = some qo)
    (hedit : compute_rest_rotation
      (restore_bone_transforms (restore_bone_transforms st.bones orig)
        (store_bone_transforms st.bones)) i
      (compute_forward_vector (restore_bone_transforms st.bones orig)) = some qe) :
    mapGet (get_rest_pose_rotation_corrections st).1 b.name =
      if 1 / 100000 < 1 - |(Quat.mul qe.conjugate qo).w| then
        some (Quat.mul qe.conjugate qo)
      else none := by
  have hpipe : (get_rest_pose_rotation_corrections st).1 =
      mapFold
        (correction_entry
          (restore_bone_transforms (restore_bone_transforms st.bones orig)
            (store_bone_transforms st.bones))
          (rest_rotations_map (restore_bone_transforms st.bones orig)
            (compute_forward_vector (restore_bone_transforms st.bones orig)))
          (compute_forward_vector (restore_bone_transforms st.bones orig)))
        (List.range (restore_bone_transforms (restore_bone_transforms st.bones orig)
          (store_bone_transforms st.bones)).length) [] := by
    simp only [get_rest_pose_rotation_corrections, h0]
  rw [hpipe,
    mapFold_get_of_keyed _ _ (correction_entry_keyed _ _ _) hnodup i b hb]
  simp only [correction_entry, hb, horig, hedit]
  by_cases hcond : 1 / 100000 < 1 - |(Quat.mul qe.conjugate qo).w|
  · rw [if_pos hcond, if_pos hcond]
    rfl
  · rw [if_neg hcond, if_neg hcond]
    rfl

end M2M

namespace M2M

/-- C2: on a skeleton whose current transforms equal the stored original
rest-pose snapshot (no edits since capture), the correction map is empty:
both passes see the same pose, every correction is `q⁻¹ × q`, whose scalar
part is `‖q‖²`, and the computed rest rotations are unit quaternions (their
basis is orthonormal in exact arithmetic — stated as a hypothesis because
square roots are modelled over ℚ), so every delta falls inside the `1e-5`
identity epsilon and is omitted. -/
theorem C2_no_edits_give_empty_correction_map (st : SolverState)
    (orig : List BoneTransformState)
    (h0 : st.original_bone_transforms = some orig)
    (hsame : store_bone_transforms st.bones = orig)
    (hnodup : (st.bones.map BoneData.name).Nodup)
    (hunit : ∀ i q,
      compute_rest_rotation st.bones i (compute_forward_vector st.bones) = some q →
        q.normSq = 1) :
    (get_rest_pose_rotation_corrections st).1 = [] := by
  have hrestored : restore_bone_transforms st.bones orig = st.bones := by
    rw [← hsame]
    exact restore_store_self st.bones
  have hpipe : (get_rest_pose_rotation_corrections st).1 =
      mapFold
        (correction_entry st.bones
          (rest_rotations_map st.bones (compute_forward_vector st.bones))
          (compute_forward_vector st.bones))
        (List.range st.bones.length) [] := by
    simp only [get_rest_pose_rotation_corrections, h0, hrestored, ← hsame,
      restore_store_self]
  rw [hpipe]
  apply mapFold_all_none
  intro i _
  cases hb : st.bones.get? i with
  | none => simp only [correction_entry, hb]
  | some b =>
    have hget := rest_rotations_map_get st.bones (compute_forward_vector st.bones)
      i b hnodup hb
    cases hc : compute_rest_rotation st.bones i (compute_forward_vector st.bones) with
    | none =>
      rw [hc] at hget
      simp only [correction_entry, hb, hget]
    | some q =>
      rw [hc] at hget
      have hw : (Quat.mul q.conjugate q).w = 1 := by
        have hns : (Quat.mul q.conjugate q).w = q.normSq := by
          simp only [Quat.mul, Quat.conjugate, Quat.normSq]
          ring
        rw [hns, hunit i q hc]
      have hcond : ¬ (1 / 100000 < 1 - |(Quat.mul q.conjugate q).w|) := by
        rw [hw]
        norm_num
      simp only [correction_entry, hb, hget, hc, if_neg hcond]

end M2M

namespace M2M

/-- A minimal unedited two-bone skeleton (root at the origin, child one unit
up) used as concrete input by the correction-solver witnesses. -/
def rest_bones : List BoneData :=
  [⟨"root", none, ⟨0, 0, 0⟩, ⟨0, 0, 0⟩, ⟨0, 0, 0, 1⟩, ⟨1, 1, 1⟩⟩,
   ⟨"child", some 0, ⟨0, 1, 0⟩, ⟨0, 0, 0⟩, ⟨0, 0, 0, 1⟩, ⟨1, 1, 1⟩⟩]

lemma natSqrtFold_one : natSqrtFold 1 = 1 := by decide

lemma natSqrtFold_toNat_four : natSqrtFold (Int.toNat 4) = 2 := by decide

lemma ratSqrt_one : ratSqrt (1 : ℚ) = 1 := by
  norm_num [ratSqrt, natSqrtFold_one]

lemma ratSqrt_four : ratSqrt (4 : ℚ) = 2 := by
  norm_num [ratSqrt, natSqrtFold_one, natSqrtFold_toNat_four, Int.toNat_ofNat]

lemma rb_forward : compute_forward_vector rest_bones = ⟨0, 0, 1⟩ := by
  have h1 : find_bone rest_bones ["hips", "pelvis"] = none := by decide
  have h2 : find_bone rest_bones ["spine", "spine1", "spine2", "lowerback"] = none := by
    decide
  have h3 : find_bone rest_bones ["leftupleg", "lhip", "lefthip", "lhipjoint"] = none := by
    decide
  have h4 : find_bone rest_bones ["rightupleg", "rhip", "righthip", "rhipjoint"] = none := by
    decide
  have h5 : find_bone rest_bones ["leftarm", "leftshoulder"] = none := by decide
  have h6 : find_bone rest_bones ["rightarm", "rightshoulder"] = none := by decide
  rw [compute_forward_vector, h1, h2, h3, h4, h5, h6]
  norm_num [Vec3.cross, Vec3.lengthSq, Vec3.normalize, Vec3.smul, ratSqrt_one]

lemma rb_world0 : world_position_from_object rest_bones 0 = ⟨0, 0, 0⟩ := by
  norm_num [world_position_from_object, worldAffine, worldAffineAux, rest_bones,
    localAffine]

lemma rb_world1 : world_position_from_object rest_bones 1 = ⟨0, 1, 0⟩ := by
  norm_num [world_position_from_object, worldAffine, worldAffineAux, rest_bones,
    localAffine, Affine.comp, quatToMat3, Mat3.mul, Mat3.mulVec, Vec3.add]

lemma rb_rest0 : compute_rest_rotation rest_bones 0 ⟨0, 0, 1⟩ = some ⟨0, 0, 0, 1⟩ := by
  have hfi : List.findIdx? (fun c => c.parent = some 0) rest_bones = some 1 := by decide
  have hget : rest_bones.get? 0 =
      some ⟨"root", none, ⟨0, 0, 0⟩, ⟨0, 0, 0⟩, ⟨0, 0, 0, 1⟩, ⟨1, 1, 1⟩⟩ := rfl
  simp only [compute_rest_rotation, hget, hfi, rb_world0, rb_world1]
  norm_num [Vec3.sub, Vec3.lengthSq, Vec3.normalize, Vec3.smul, Vec3.dot, Vec3.cross,
    ratSqrt_one, ratSqrt_four, Mat3.makeBasis, quatFromRotationMatrix]

lemma rb_rest1 : ∀ fw, compute_rest_rotation rest_bones 1 fw = none := by
  intro fw
  have hfi : List.findIdx? (fun c => c.parent = some 1) rest_bones = none := by decide
  have hget : rest_bones.get? 1 =
      some ⟨"child", some 0, ⟨0, 1, 0⟩, ⟨0, 0, 0⟩, ⟨0, 0, 0, 1⟩, ⟨1, 1, 1⟩⟩ := rfl
  simp only [compute_rest_rotation, hget, hfi]

lemma rb_rest_big : ∀ k fw, compute_rest_rotation rest_bones (k + 2) fw = none := by
  intro k fw
  have hget : rest_bones.get? (k + 2) = none := rfl
  simp only [compute_rest_rotation, hget]

/-- C2 witness: the two-bone skeleton, unedited since capture, produces an
empty correction map. -/
theorem C2_witness :
    (get_rest_pose_rotation_corrections
      ⟨rest_bones, some (store_bone_transforms rest_bones)⟩).1 = [] :=
  C2_no_edits_give_empty_correction_map
    ⟨rest_bones, some (store_bone_transforms rest_bones)⟩
    (store_bone_transforms rest_bones) rfl rfl (by decide)
    (by
      show ∀ i q,
        compute_rest_rotation rest_bones i (compute_forward_vector rest_bones) =
          some q → q.normSq = 1
      rw [rb_forward]
      intro i q h
      cases i with
      | zero =>
        rw [rb_rest0] at h
        rw [← Option.some.inj h]
        norm_num [Quat.normSq]
      | succ n =>
        cases n with
        | zero =>
          rw [rb_rest1] at h
          exact Option.noConfusion h
        | succ k =>
          rw [rb_rest_big] at h
          exact Option.noConfusion h)

/-- C1 witness: on the two-bone skeleton both rest-rotation maps hold the
identity for `root`; the correction is the conjugate product of the two, and
the lookup follows the `1e-5` filter. -/
theorem C1_witness :
    mapGet (get_rest_pose_rotation_corrections
      ⟨rest_bones, some (store_bone_transforms rest_bones)⟩).1 "root" =
      if 1 / 100000 <
          1 - |(Quat.mul (Quat.conjugate ⟨0, 0, 0, 1⟩) ⟨0, 0, 0, 1⟩).w| then
        some (Quat.mul (Quat.conjugate ⟨0, 0, 0, 1⟩) ⟨0, 0, 0, 1⟩)
      else none :=
  C1_correction_value_and_epsilon_filter
    ⟨rest_bones, some (store_bone_transforms rest_bones)⟩
    (store_bone_transforms rest_bones) rfl 0
    ⟨"root", none, ⟨0, 0, 0⟩, ⟨0, 0, 0⟩, ⟨0, 0, 0, 1⟩, ⟨1, 1, 1⟩⟩
    ⟨0, 0, 0, 1⟩ ⟨0, 0, 0, 1⟩
    (by
      show ((restore_bone_transforms
        (restore_bone_transforms rest_bones (store_bone_transforms rest_bones))
        (store_bone_transforms rest_bones)).map BoneData.name).Nodup
      rw [restore_store_roundtrip rest_bones (store_bone_transforms rest_bones)]
      decide)
    (by
      show (restore_bone_transforms
        (restore_bone_transforms rest_bones (store_bone_transforms rest_bones))
        (store_bone_transforms rest_bones)).get? 0 =
          some ⟨"root", none, ⟨0, 0, 0⟩, ⟨0, 0, 0⟩, ⟨0, 0, 0, 1⟩, ⟨1, 1, 1⟩⟩
      rw [restore_store_roundtrip rest_bones (store_bone_transforms rest_bones)]
      rfl)
    (by
      show mapGet
        (rest_rotations_map
          (restore_bone_transforms rest_bones (store_bone_transforms rest_bones))
          (compute_forward_vector
            (restore_bone_transforms rest_bones (store_bone_transforms rest_bones))))
        (BoneData.name ⟨"root", none, ⟨0, 0, 0⟩, ⟨0, 0, 0⟩, ⟨0, 0, 0, 1⟩, ⟨1, 1, 1⟩⟩) =
          some ⟨0, 0, 0, 1⟩
      rw [restore_store_self rest_bones, rb_forward]
      exact (rest_rotations_map_get rest_bones ⟨0, 0, 1⟩ 0 _ (by decide) rfl).trans
        rb_rest0)
    (by
      show compute_rest_rotation
        (restore_bone_transforms
          (restore_bone_transforms rest_bones (store_bone_transforms rest_bones))
          (store_bone_transforms rest_bones)) 0
        (compute_forward_vector
          (restore_bone_transforms rest_bones (store_bone_transforms rest_bones))) =
          some ⟨0, 0, 0, 1⟩
      rw [restore_store_roundtrip rest_bones (store_bone_transforms rest_bones),
        restore_store_self rest_bones, rb_forward]
      exact rb_rest0)

end M2M
